import Mathlib

/-!
Shallow embedding of the godatatables `types` package: the DataTables
request/response data model, the form decoder (`ParseURLValues` and its
helpers `parseOrder`, `parseSearch`, `parseColumn`), and the JSON codecs
(`Row.MarshalJSON` / `Row.UnmarshalJSON` plus the structural document
codec for `Request` and `Response`).

Modelling conventions:
* Go `string` is Lean `String`; Go `int` is `Int` (64-bit overflow is out
  of the claims' scope); Go `bool` is `Bool`.
* A Go `map[string]string` is an association list `List (String × String)`
  whose order is bookkeeping only (Go maps are unordered); insertion
  replaces an existing key in place, mirroring Go map assignment.
* JSON values are the inductive `Json`; a JSON object carries its fields
  as an association list in textual order, and decoding follows Go's
  `encoding/json` semantics (member names match struct field tags
  case-insensitively with the last match winning, later duplicate keys
  win in maps, `null` leaves the target at its zero value, type
  mismatches are errors).
* Fallible Go functions returning `(T, error)` become `Except GoErr T` /
  `Option T`; when Go returns both a partially built value and a non-nil
  error, the caller discards the value, so the model keeps the error only.
* The `(?U)` (lazy) regular expressions of the source are re-expressed as
  the equivalent hand-written matchers `orderMatch`, `searchMatch`,
  `columnMatch`; each comment states the regexp it implements.
-/

namespace GoDataTables

/-- Errors produced by the form decoder: `strconv.Atoi` failures and the
package-level `ErrNotEnoughFields`. -/
inductive GoErr where
  | errAtoi : GoErr
  | errNotEnoughFields : GoErr
deriving DecidableEq, Repr

/-- `type OrderDirection string` — ordering direction wire type. -/
abbrev OrderDirection := String

/-- `OrderAscending OrderDirection = "asc"` -/
def OrderAscending : OrderDirection := "asc"

/-- `OrderDescending OrderDirection = "desc"` -/
def OrderDescending : OrderDirection := "desc"

/-- `Search` struct: the (regex) value to search for. -/
structure Search where
  Value : String
  Regex : Bool
deriving DecidableEq, Repr

/-- Go zero value of `Search`. -/
def Search.zero : Search := ⟨"", false⟩

/-- `Order` struct: ordering information. -/
structure Order where
  Column : Int
  Dir : OrderDirection
deriving DecidableEq, Repr

/-- Go zero value of `Order` (note the zero `OrderDirection` is `""`). -/
def Order.zero : Order := ⟨0, ""⟩

/-- `Column` struct: the requested column data. -/
structure Column where
  Data : String
  Name : String
  Searchable : Bool
  Orderable : Bool
  Search : Search
deriving DecidableEq, Repr

/-- Go zero value of `Column`. -/
def Column.zero : Column := ⟨"", "", false, false, Search.zero⟩

/-- `Request` struct: the incoming DataTables request. -/
structure Request where
  Draw : Int
  Start : Int
  Length : Int
  Search : Search
  Order : List Order
  Columns : List Column
deriving DecidableEq, Repr

/-- Go zero value of `Request` (nil slices are the empty list). -/
def Request.zero : Request := ⟨0, 0, 0, Search.zero, [], []⟩

/-- `Row` struct: column data plus the four optional metadata fields.
`map[string]string` fields are association lists (order is bookkeeping
only; a nil map and an empty map are both `[]`). -/
structure Row where
  Data : List (String × String)
  RowID : String
  RowClass : String
  RowData : List (String × String)
  RowAttr : List (String × String)
deriving DecidableEq, Repr

/-- Go zero value of `Row`. -/
def Row.zero : Row := ⟨[], "", "", [], []⟩

/-- `Response` struct: the outgoing table data. -/
structure Response where
  Draw : Int
  RecordsTotal : Int
  RecordsFiltered : Int
  Data : List Row
  Error : String
deriving DecidableEq, Repr

/-! ### Small string/number helpers (strconv, strings) -/

/-- Decimal digit test, as in the `[0-9]` character class. -/
def isDigitChar (c : Char) : Bool := '0' ≤ c && c ≤ '9'

/-- Value of a decimal digit. -/
def digitVal (c : Char) : Nat := c.toNat - '0'.toNat

/-- Accumulate a base-10 natural from a digit list; `none` on the empty
list or any non-digit (the digits-only core of `strconv.Atoi`). -/
def parseDigits (cs : List Char) : Option Nat :=
  if cs.isEmpty then none
  else cs.foldlM (fun acc c => if isDigitChar c then some (acc * 10 + digitVal c) else none) 0

/-- `strconv.Atoi`: optional sign then decimal digits; `none` models a
non-nil error (the 64-bit range error is outside the claims' scope). -/
def atoi (s : String) : Option Int :=
  match s.toList with
  | '+' :: rest => (parseDigits rest).map Int.ofNat
  | '-' :: rest => (parseDigits rest).map (fun n => -(n : Int))
  | cs => (parseDigits cs).map Int.ofNat

/-- `strings.HasPrefix p s` (arguments: pattern, subject). -/
def hasPfx (p s : String) : Bool := p.toList.isPrefixOf s.toList

/-! ### The three key matchers

The source compiles three lazy (`(?U)`) anchored regular expressions.
Because every group is followed by a forced literal (`][`, `]` or end of
string), each regexp has at most one successful way to match a given key,
and the matchers below compute exactly that match.
-/

/-- `orderRegexp = (?U)^order\[([0-9]+)\]\[(.+)\]$` — returns
(group 1, group 2) on a match.  Group 1 is the maximal digit run after
`order[` (it must be followed by `][`); group 2 is everything between
`][` and the final `]`, which must be nonempty. -/
def orderMatch (k : String) : Option (String × String) :=
  let cs := k.toList
  if ("order[".toList).isPrefixOf cs then
    let rest := cs.drop 6
    let d := rest.takeWhile isDigitChar
    if d.isEmpty then none
    else
      match rest.dropWhile isDigitChar with
      | ']' :: '[' :: rest3 =>
        if 2 ≤ rest3.length && rest3.getLast? == some ']' then
          some (String.mk d, String.mk rest3.dropLast)
        else none
      | _ => none
  else none

/-- `searchRegexp = (?U)^search\[(.+)\]$` — returns group 1 on a match:
everything between `search[` and the final `]`, which must be nonempty. -/
def searchMatch (k : String) : Option String :=
  let cs := k.toList
  if ("search[".toList).isPrefixOf cs then
    let rest := cs.drop 7
    if 2 ≤ rest.length && rest.getLast? == some ']' then
      some (String.mk rest.dropLast)
    else none
  else none

/-- `columnRegexp = (?U)^columns\[([0-9]+)\]\[(.+)\](.*)$` — returns
(group 1, group 2, group 3).  Group 1 as in `orderMatch`; the lazy
group 2 is the (nonempty) run up to the first `]` at index ≥ 1 of the
remainder; group 3 is everything after that `]`. -/
def columnMatch (k : String) : Option (String × String × String) :=
  let cs := k.toList
  if ("columns[".toList).isPrefixOf cs then
    let rest := cs.drop 8
    let d := rest.takeWhile isDigitChar
    if d.isEmpty then none
    else
      match rest.dropWhile isDigitChar with
      | ']' :: '[' :: rest3 =>
        match rest3 with
        | [] => none
        | c :: rs =>
          let x := c :: rs.takeWhile (fun ch => ch ≠ ']')
          match rs.dropWhile (fun ch => ch ≠ ']') with
          | ']' :: g3 => some (String.mk d, String.mk x, String.mk g3)
          | _ => none
      | _ => none
  else none

/-! ### Form decoder -/

/-- `make([]T, n)` followed by `copy` onto an old slice `o`, as used for
index growth: when `n > len o`, the result is `o` padded with zero values
to length `n`; otherwise the slice is reused unchanged. -/
def grow {α : Type} (z : α) (o : List α) (n : Nat) : List α :=
  if o.length < n then o ++ List.replicate (n - o.length) z else o

/-- `parseSearch` — parses the search urlvalue fields, e.g. `search[value]`. -/
def parseSearch (s : Search) (k v : String) : Except GoErr Search :=
  match searchMatch k with
  | none => .error .errNotEnoughFields
  | some f =>
    if f = "value" then .ok { s with Value := v }
    else if f = "regex" then
      if v = "true" then .ok { s with Regex := true }
      else .ok { s with Regex := false }
    else .ok s

/-- `parseOrder` — parses the order urlvalue fields, e.g. `order[0][dir]`. -/
def parseOrder (o : List Order) (k v : String) : Except GoErr (List Order) :=
  match orderMatch k with
  | none => .error .errNotEnoughFields
  | some (ds, f) =>
    match atoi ds with
    | none => .error .errAtoi
    | some idi =>
      let id := idi.toNat
      let out := grow Order.zero o (id + 1)
      if f = "column" then
        match atoi v with
        | none => .error .errAtoi
        | some n => .ok (out.set id { out.getD id Order.zero with Column := n })
      else if f = "dir" then
        if v = "asc" then .ok (out.set id { out.getD id Order.zero with Dir := OrderAscending })
        else if v = "desc" then .ok (out.set id { out.getD id Order.zero with Dir := OrderDescending })
        else .ok out
      else .ok out

/-- `parseColumn` — parses the column urlvalue fields, e.g. `columns[0][data]`. -/
def parseColumn (cin : List Column) (k v : String) : Except GoErr (List Column) :=
  match columnMatch k with
  | none => .error .errNotEnoughFields
  | some (ds, f, g3) =>
    match atoi ds with
    | none => .error .errAtoi
    | some idi =>
      let id := idi.toNat
      let out := grow Column.zero cin (id + 1)
      if f = "data" then .ok (out.set id { out.getD id Column.zero with Data := v })
      else if f = "name" then .ok (out.set id { out.getD id Column.zero with Name := v })
      else if f = "searchable" then
        if v = "true" then .ok (out.set id { out.getD id Column.zero with Searchable := true })
        else .ok (out.set id { out.getD id Column.zero with Searchable := false })
      else if f = "orderable" then
        if v = "true" then .ok (out.set id { out.getD id Column.zero with Orderable := true })
        else .ok (out.set id { out.getD id Column.zero with Orderable := false })
      else if f = "search" then
        match parseSearch (out.getD id Column.zero).Search ("search" ++ g3) v with
        | .error e => .error e
        | .ok s => .ok (out.set id { out.getD id Column.zero with Search := s })
      else .ok out

/-- One iteration of the `ParseURLValues` loop body for key `k` with value
list `vs`: an empty list is skipped (`continue`), otherwise only `vs[0]`
is used; dispatch is by exact match for `draw`/`start`/`length` and by
`strings.HasPrefix` for the three key families. -/
def parseStep (r : Request) (k : String) (vs : List String) : Except GoErr Request :=
  match vs with
  | [] => .ok r
  | v :: _ =>
    if k = "draw" then
      match atoi v with
      | none => .error .errAtoi
      | some n => .ok { r with Draw := n }
    else if k = "start" then
      match atoi v with
      | none => .error .errAtoi
      | some n => .ok { r with Start := n }
    else if k = "length" then
      match atoi v with
      | none => .error .errAtoi
      | some n => .ok { r with Length := n }
    else if hasPfx "search" k then
      match parseSearch r.Search k v with
      | .error e => .error e
      | .ok s => .ok { r with Search := s }
    else if hasPfx "order" k then
      match parseOrder r.Order k v with
      | .error e => .error e
      | .ok o => .ok { r with Order := o }
    else if hasPfx "column" k then
      match parseColumn r.Columns k v with
      | .error e => .error e
      | .ok c => .ok { r with Columns := c }
    else .ok r

/-- The `ParseURLValues` loop over the remaining key/value entries; the
first error aborts the decode. -/
def parseURLValuesAux (r : Request) : List (String × List String) → Except GoErr Request
  | [] => .ok r
  | (k, vs) :: rest =>
    match parseStep r k vs with
    | .error e => .error e
    | .ok r2 => parseURLValuesAux r2 rest

/-- `ParseURLValues` — parses http request `url.Values` into a `Request`.
The input is the entry list of the Go map; Go's map iteration order is
arbitrary, so theorems quantify over the list order where it matters. -/
def ParseURLValues (u : List (String × List String)) : Except GoErr Request :=
  parseURLValuesAux Request.zero u

/-! ### JSON model (`encoding/json` semantics) -/

/-- JSON values.  An object carries its fields in textual order; numbers
are integers (the codec never produces or needs fractions). -/
inductive Json where
  | str : String → Json
  | num : Int → Json
  | jbool : Bool → Json
  | null : Json
  | arr : List Json → Json
  | obj : List (String × Json) → Json

/-- Go map assignment `m[k] = v` on the association-list model: replace
the entry in place when the key exists, otherwise append. -/
def mapUpd {α : Type} (m : List (String × α)) (k : String) (v : α) : List (String × α) :=
  if m.any (fun p => p.1 = k) then m.map (fun p => if p.1 = k then (k, v) else p)
  else m ++ [(k, v)]

/-- Go map member removal `delete(m, k)`. -/
def mapDel {α : Type} (m : List (String × α)) (k : String) : List (String × α) :=
  m.filter (fun p => p.1 ≠ k)

/-- Case folding used by `encoding/json` when it matches object member
names against struct field names: ASCII letters are folded to lower case.
(The struct tags of this package are all ASCII; Go additionally folds a
few non-ASCII characters such as the Kelvin sign, which is why the
object-decode theorems restrict member names to ASCII.) -/
def foldKey (s : String) : List Char := s.toList.map Char.toLower

/-- Member-name/field-name match of `encoding/json`: an exact match is
preferred but a case-insensitive match is also accepted; for the tags of
this package (pairwise distinct even after folding) both reduce to
equality of the folded names. -/
def foldEq (a b : String) : Bool := foldKey a == foldKey b

/-- The value `encoding/json` stores into the struct field whose JSON tag
is `k`: members are processed in order and each member whose name matches
`k` — exactly or case-insensitively — is decoded into the field, so the
last matching member wins.  (When several member names fold to the same
tag, Go's repeated decoding into the same field has merge/no-op rules
this single lookup does not capture; the object-decode theorems therefore
assume pairwise fold-distinct member names.) -/
def lastFoldLookup (kvs : List (String × Json)) (k : String) : Option Json :=
  kvs.foldl (fun acc p => if foldEq p.1 k then some p.2 else acc) none

/-- Unmarshal a JSON array elementwise; `null` leaves a slice nil. -/
def decodeEach {α : Type} (f : Json → Option α) : List Json → Option (List α)
  | [] => some []
  | j :: rest =>
    match f j with
    | none => none
    | some a => (decodeEach f rest).map (a :: ·)

/-- Unmarshal one array element into a `string`: a JSON string, or `null`
(which leaves the fresh element at its zero value `""`). -/
def decodeStrElem : Json → Option String
  | .str s => some s
  | .null => some ""
  | _ => none

/-- Unmarshal into `[]string`: `null` leaves the slice nil, an array
decodes elementwise, anything else is a type error. -/
def decodeStringList : Json → Option (List String)
  | .null => some []
  | .arr xs => decodeEach decodeStrElem xs
  | _ => none

/-- The member loop of unmarshalling an object into a fresh
`map[string]string`: each member must be a string (or `null`, storing the
zero value); later duplicate keys overwrite via `mapUpd`. -/
def decodeMapEntries (acc : List (String × String)) : List (String × Json) → Option (List (String × String))
  | [] => some acc
  | (k, .str s) :: rest => decodeMapEntries (mapUpd acc k s) rest
  | (k, .null) :: rest => decodeMapEntries (mapUpd acc k "") rest
  | _ => none

/-- Unmarshal into `map[string]string`. -/
def decodeStringMap : Json → Option (List (String × String))
  | .null => some []
  | .obj kvs => decodeMapEntries [] kvs
  | _ => none

/-- Marshal a `map[string]string` (member order is the association-list
order; Go would sort the keys, which is semantically irrelevant for an
unordered map). -/
def encodeStringMap (m : List (String × String)) : Json :=
  .obj (m.map (fun p => (p.1, Json.str p.2)))

/-- Unmarshal a struct field of type `string` under JSON tag `k`: the
member name is matched case-insensitively (`lastFoldLookup`); absent or
`null` leaves the zero value `""`; a non-string is an error. -/
def getStrField (kvs : List (String × Json)) (k : String) : Option String :=
  match lastFoldLookup kvs k with
  | none => some ""
  | some (.str s) => some s
  | some .null => some ""
  | some _ => none

/-- Unmarshal a struct field of type `map[string]string` under JSON tag
`k` (member name matched case-insensitively): absent leaves the nil map
(`[]`). -/
def getMapField (kvs : List (String × Json)) (k : String) : Option (List (String × String)) :=
  match lastFoldLookup kvs k with
  | none => some []
  | some j => decodeStringMap j

/-- Unmarshal a struct field of type `int` under JSON tag `k` (member name matched case-insensitively). -/
def getIntField (kvs : List (String × Json)) (k : String) : Option Int :=
  match lastFoldLookup kvs k with
  | none => some 0
  | some (.num n) => some n
  | some .null => some 0
  | some _ => none

/-- Unmarshal a struct field of type `bool` under JSON tag `k` (member name matched case-insensitively). -/
def getBoolField (kvs : List (String × Json)) (k : String) : Option Bool :=
  match lastFoldLookup kvs k with
  | none => some false
  | some (.jbool b) => some b
  | some .null => some false
  | some _ => none

/-! ### Row codec -/

/-- The four reserved metadata keys. -/
def reservedKeys : List String := ["DT_RowId", "DT_RowClass", "DT_RowData", "DT_RowAttr"]

/-- `Row.UnmarshalJSON`.  First the input is tried as a `[]string` (each
element keyed by its decimal index); otherwise it must be an object: the
`rowCopy` struct extracts the four reserved fields, the whole object is
decoded into a `map[string]string`, and the reserved keys are deleted
from that map. -/
def Row.unmarshalJSON (j : Json) : Option Row :=
  match decodeStringList j with
  | some rowData =>
    some { Data := rowData.enum.map (fun p => (Nat.repr p.1, p.2)),
           RowID := "", RowClass := "", RowData := [], RowAttr := [] }
  | none =>
    match j with
    | .obj kvs =>
      match getStrField kvs "DT_RowId", getStrField kvs "DT_RowClass",
            getMapField kvs "DT_RowData", getMapField kvs "DT_RowAttr" with
      | some rid, some rcl, some rdata, some rattr =>
        match decodeStringMap (.obj kvs) with
        | none => none
        | some data =>
          some { Data := reservedKeys.foldl mapDel data,
                 RowID := rid, RowClass := rcl, RowData := rdata, RowAttr := rattr }
      | _, _, _, _ => none
    | _ => none

/-- `Row.MarshalJSON`: a fresh map receives every data entry, then the
reserved keys for each non-empty metadata field. -/
def Row.marshalJSON (r : Row) : Json :=
  let c := (r.Data.map (fun p => (p.1, Json.str p.2))).foldl (fun m p => mapUpd m p.1 p.2) []
  let c := if r.RowID ≠ "" then mapUpd c "DT_RowId" (.str r.RowID) else c
  let c := if r.RowClass ≠ "" then mapUpd c "DT_RowClass" (.str r.RowClass) else c
  let c := if r.RowData ≠ [] then mapUpd c "DT_RowData" (encodeStringMap r.RowData) else c
  let c := if r.RowAttr ≠ [] then mapUpd c "DT_RowAttr" (encodeStringMap r.RowAttr) else c
  Json.obj c

/-! ### Document codec (structural JSON for Request/Response) -/

/-- Marshal `Search` by its field tags. -/
def Search.toJson (s : Search) : Json :=
  .obj [("value", .str s.Value), ("regex", .jbool s.Regex)]

/-- Unmarshal `Search` (a missing field keeps its zero value). -/
def Search.fromJson : Json → Option Search
  | .null => some Search.zero
  | .obj kvs =>
    match getStrField kvs "value", getBoolField kvs "regex" with
    | some v, some rx => some ⟨v, rx⟩
    | _, _ => none
  | _ => none

/-- Marshal `Order` by its field tags. -/
def Order.toJson (o : Order) : Json :=
  .obj [("column", .num o.Column), ("dir", .str o.Dir)]

/-- Unmarshal `Order`. -/
def Order.fromJson : Json → Option Order
  | .null => some Order.zero
  | .obj kvs =>
    match getIntField kvs "column", getStrField kvs "dir" with
    | some c, some d => some ⟨c, d⟩
    | _, _ => none
  | _ => none

/-- Marshal `Column` by its field tags. -/
def Column.toJson (c : Column) : Json :=
  .obj [("data", .str c.Data), ("name", .str c.Name), ("searchable", .jbool c.Searchable),
        ("orderable", .jbool c.Orderable), ("search", c.Search.toJson)]

/-- Unmarshal `Column`. -/
def Column.fromJson : Json → Option Column
  | .null => some Column.zero
  | .obj kvs =>
    match getStrField kvs "data", getStrField kvs "name", getBoolField kvs "searchable",
          getBoolField kvs "orderable" with
    | some d, some n, some sb, some ob =>
      match lastFoldLookup kvs "search" with
      | none => some ⟨d, n, sb, ob, Search.zero⟩
      | some js => (Search.fromJson js).map (⟨d, n, sb, ob, ·⟩)
    | _, _, _, _ => none
  | _ => none

/-- Unmarshal a struct field holding a slice decoded elementwise with
`f`: absent or `null` leaves the nil slice. -/
def getListField {α : Type} (f : Json → Option α) (kvs : List (String × Json)) (k : String) : Option (List α) :=
  match lastFoldLookup kvs k with
  | none => some []
  | some .null => some []
  | some (.arr xs) => decodeEach f xs
  | some _ => none

/-- Marshal `Request` by its field tags. -/
def Request.toJson (r : Request) : Json :=
  .obj [("draw", .num r.Draw), ("start", .num r.Start), ("length", .num r.Length),
        ("search", r.Search.toJson), ("order", .arr (r.Order.map Order.toJson)),
        ("columns", .arr (r.Columns.map Column.toJson))]

/-- Unmarshal `Request`. -/
def Request.fromJson : Json → Option Request
  | .null => some Request.zero
  | .obj kvs =>
    match getIntField kvs "draw", getIntField kvs "start", getIntField kvs "length" with
    | some dw, some st, some ln =>
      match lastFoldLookup kvs "search" with
      | some js =>
        match Search.fromJson js with
        | none => none
        | some s =>
          match getListField Order.fromJson kvs "order", getListField Column.fromJson kvs "columns" with
          | some os, some cs => some ⟨dw, st, ln, s, os, cs⟩
          | _, _ => none
      | none =>
        match getListField Order.fromJson kvs "order", getListField Column.fromJson kvs "columns" with
        | some os, some cs => some ⟨dw, st, ln, Search.zero, os, cs⟩
        | _, _ => none
    | _, _, _ => none
  | _ => none

/-- Marshal `Response` by its field tags; `error` carries `omitempty`. -/
def Response.toJson (r : Response) : Json :=
  .obj ([("draw", .num r.Draw), ("recordsTotal", .num r.RecordsTotal),
         ("recordsFiltered", .num r.RecordsFiltered),
         ("data", .arr (r.Data.map Row.marshalJSON))] ++
        (if r.Error ≠ "" then [("error", .str r.Error)] else []))

/-- Unmarshal `Response` (each row via `Row.UnmarshalJSON`). -/
def Response.fromJson : Json → Option Response
  | .null => some ⟨0, 0, 0, [], ""⟩
  | .obj kvs =>
    match getIntField kvs "draw", getIntField kvs "recordsTotal",
          getIntField kvs "recordsFiltered" with
    | some dw, some rt, some rf =>
      match getListField Row.unmarshalJSON kvs "data", getStrField kvs "error" with
      | some rows, some e => some ⟨dw, rt, rf, rows, e⟩
      | _, _ => none
    | _, _, _ => none
  | _ => none

/-- Rows whose encoded form survives the decoder unchanged: the data keys
are pairwise distinct (automatic for a Go map), ASCII, and distinct from
every reserved metadata key even up to case — `encoding/json` matches
member names to the reserved `rowCopy` tags case-insensitively, so a
case-variant such as `"dt_rowid"` would be captured by a metadata field —
and the `DT_RowData` / `DT_RowAttr` mappings are empty. -/
def Row.plain (r : Row) : Prop :=
  (r.Data.map Prod.fst).Nodup
  ∧ (∀ p ∈ r.Data, ∀ c ∈ p.1.toList, c.toNat < 128)
  ∧ (∀ p ∈ r.Data, ∀ k ∈ reservedKeys, foldEq p.1 k = false)
  ∧ r.RowData = [] ∧ r.RowAttr = []

instance : DecidablePred Row.plain := fun r => by
  unfold Row.plain
  infer_instance

/-- A row whose `DT_RowData` mapping is non-empty. -/
def rowWithRowData : Row := ⟨[], "", "", [("a", "b")], []⟩

/-- A response containing `rowWithRowData`. -/
def respWithRowData : Response := ⟨5, 2, 2, [rowWithRowData], ""⟩

/-! ## Lemmas about the form decoder -/

theorem parseStep_head (r : Request) (k v : String) (vs : List String) :
    parseStep r k (v :: vs) = parseStep r k [v] := rfl

theorem parseStep_ignored (r : Request) (k : String) (vs : List String)
    (h1 : k ≠ "draw") (h2 : k ≠ "start") (h3 : k ≠ "length")
    (h4 : hasPfx "search" k = false) (h5 : hasPfx "order" k = false)
    (h6 : hasPfx "column" k = false) :
    parseStep r k vs = .ok r := by
  cases vs with
  | nil => rfl
  | cons v vs => simp [parseStep, h1, h2, h3, h4, h5, h6]

theorem parseAux_congr (u1 rest1 rest2 : List (String × List String))
    (h : ∀ r : Request, parseURLValuesAux r rest1 = parseURLValuesAux r rest2) :
    ∀ r : Request, parseURLValuesAux r (u1 ++ rest1) = parseURLValuesAux r (u1 ++ rest2) := by
  induction u1 with
  | nil => exact h
  | cons a u1 ih =>
    intro r
    obtain ⟨k, vs⟩ := a
    simp only [List.cons_append, parseURLValuesAux]
    cases parseStep r k vs with
    | error e => rfl
    | ok r2 => exact ih r2

theorem grow_length {α : Type} (z : α) (o : List α) (n : Nat) :
    (grow z o n).length = max o.length n := by
  unfold grow
  by_cases h : o.length < n
  · simp only [if_pos h, List.length_append, List.length_replicate]
    omega
  · simp only [if_neg h]
    omega

theorem grow_getD_lt {α : Type} (z : α) (o : List α) (n j : Nat) (h : j < o.length) :
    (grow z o n).getD j z = o.getD j z := by
  unfold grow
  by_cases hn : o.length < n
  · simp only [if_pos hn]
    exact List.getD_append _ _ _ _ h
  · simp only [if_neg hn]

theorem grow_getD_ge {α : Type} (z : α) (o : List α) (n j : Nat) (h : o.length ≤ j) :
    (grow z o n).getD j z = z := by
  unfold grow
  by_cases hn : o.length < n
  · simp only [if_pos hn]
    rw [List.getD_append_right _ _ _ _ h]
    rcases Nat.lt_or_ge (j - o.length) (n - o.length) with hlt | hge
    · rw [List.getD_eq_getElem _ _ (by simpa using hlt)]
      exact List.getElem_replicate _ _
    · exact List.getD_eq_default _ _ (by simpa using hge)
  · simp only [if_neg hn]
    exact List.getD_eq_default _ _ h

theorem set_getD_ne {α : Type} (l : List α) (i j : Nat) (a z : α) (h : i ≠ j) :
    (l.set i a).getD j z = l.getD j z := by
  rw [List.getD_eq_getD_get?, List.getD_eq_getD_get?, List.get?_set_ne a _ h]
/-- Common shape of the Columns/Order index-growth result: the output is
the zero-padded input, possibly with the entry at the matched index
overwritten. -/
theorem growth_spec {α : Type} (z : α) (o : List α) (id : Nat) (out : List α)
    (h : out = grow z o (id + 1) ∨ ∃ x, out = (grow z o (id + 1)).set id x) :
    out.length = max o.length (id + 1)
    ∧ (∀ j, j < o.length → j ≠ id → out.getD j z = o.getD j z)
    ∧ (∀ j, o.length ≤ j → j ≠ id → out.getD j z = z) := by
  have hlen : out.length = (grow z o (id + 1)).length := by
    rcases h with rfl | ⟨x, rfl⟩
    · rfl
    · exact List.length_set ..
  have hgd : ∀ j, j ≠ id → out.getD j z = (grow z o (id + 1)).getD j z := by
    intro j hj
    rcases h with rfl | ⟨x, rfl⟩
    · rfl
    · exact set_getD_ne _ _ _ _ _ (fun e => hj e.symm)
  refine ⟨hlen.trans (grow_length z o (id + 1)), fun j hj hne => ?_, fun j hj hne => ?_⟩
  · rw [hgd j hne]
    exact grow_getD_lt z o (id + 1) j hj
  · rw [hgd j hne]
    exact grow_getD_ge z o (id + 1) j hj

/-! ## Claims about the form decoder -/

/-- C3 (counterexample): decoding `order[0][dir]` with an unrecognized
value leaves the direction at the zero value of `OrderDirection`, which
is the empty string — a value distinct from the ascending wire constant
`"asc"`, contradicting the claim that the zero value is ascending. -/
theorem claim_c3_cex :
    parseOrder [] "order[0][dir]" "bogus" = .ok [{ Column := 0, Dir := "" }]
    ∧ ("" : OrderDirection) ≠ OrderAscending :=
  ⟨rfl, by decide⟩

/-- C3 (amended): form-decoding `order[i][dir]` maps `"asc"` to the
ascending direction and `"desc"` to the descending direction; any other
value leaves the direction at its zero value — the empty string, which
is distinct from the ascending constant `"asc"` although consumers treat
any non-`"desc"` direction as ascending — and never fails the decode. -/
theorem claim_c3 (v : String) :
    parseOrder [] "order[0][dir]" "asc" = .ok [{ Column := 0, Dir := OrderAscending }]
    ∧ parseOrder [] "order[0][dir]" "desc" = .ok [{ Column := 0, Dir := OrderDescending }]
    ∧ (v ≠ "asc" → v ≠ "desc" →
        parseOrder [] "order[0][dir]" v = .ok [{ Column := 0, Dir := "" }]) := by
  refine ⟨rfl, rfl, fun h1 h2 => ?_⟩
  have e : parseOrder [] "order[0][dir]" v =
      (if v = "asc" then .ok [{ Column := 0, Dir := OrderAscending }]
       else if v = "desc" then .ok [{ Column := 0, Dir := OrderDescending }]
       else .ok [{ Column := 0, Dir := "" }]) := rfl
  rw [e, if_neg h1, if_neg h2]

/-- C3 (witness): an unrecognized direction value decodes without failure
to the zero direction. -/
theorem claim_c3_witness :
    parseOrder [] "order[0][dir]" "descending" = .ok [{ Column := 0, Dir := "" }] :=
  (claim_c3 "descending").2.2 (by decide) (by decide)

/-- C6 (confirmed): when `parseOrder` or `parseColumn` succeeds on a key
whose matched index is `id`, the output sequence has exactly
`max (length input) (id+1)` entries — so a first-seen index at or beyond
the current length grows the sequence to exactly `id+1` — every entry of
the input other than the one at `id` keeps its value, and every newly
created entry other than the one at `id` is the zero value; hence growth
never discards an already-written entry, whatever the processing order. -/
theorem claim_c6 :
    (∀ (o : List Order) (k v ds f : String) (id : Nat) (out : List Order),
        orderMatch k = some (ds, f) → atoi ds = some (Int.ofNat id) →
        parseOrder o k v = .ok out →
        out.length = max o.length (id + 1)
        ∧ (∀ j, j < o.length → j ≠ id → out.getD j Order.zero = o.getD j Order.zero)
        ∧ (∀ j, o.length ≤ j → j ≠ id → out.getD j Order.zero = Order.zero))
    ∧ (∀ (cin : List Column) (k v ds f g3 : String) (id : Nat) (out : List Column),
        columnMatch k = some (ds, f, g3) → atoi ds = some (Int.ofNat id) →
        parseColumn cin k v = .ok out →
        out.length = max cin.length (id + 1)
        ∧ (∀ j, j < cin.length → j ≠ id → out.getD j Column.zero = cin.getD j Column.zero)
        ∧ (∀ j, cin.length ≤ j → j ≠ id → out.getD j Column.zero = Column.zero)) := by
  constructor
  · intro o k v ds f id out hm ha hp
    unfold parseOrder at hp
    simp only [hm, ha] at hp
    apply growth_spec Order.zero o id out
    repeat' split at hp
    all_goals
      first
      | exact Or.inl (Except.ok.inj hp).symm
      | exact Or.inr ⟨_, (Except.ok.inj hp).symm⟩
      | simp at hp
  · intro cin k v ds f g3 id out hm ha hp
    unfold parseColumn at hp
    simp only [hm, ha] at hp
    apply growth_spec Column.zero cin id out
    repeat' split at hp
    all_goals
      first
      | exact Or.inl (Except.ok.inj hp).symm
      | exact Or.inr ⟨_, (Except.ok.inj hp).symm⟩
      | simp at hp

/-- C6 (witness): growing `[{Column := 7, Dir := "desc"}]` through key
`order[2][dir]` preserves the existing entry and yields three entries. -/
theorem claim_c6_witness :
    ([{ Column := 7, Dir := "desc" }, Order.zero, { Column := 0, Dir := "asc" }] : List Order).getD 0 Order.zero
      = ([{ Column := 7, Dir := "desc" }] : List Order).getD 0 Order.zero
    ∧ ([{ Column := 7, Dir := "desc" }, Order.zero, { Column := 0, Dir := "asc" }] : List Order).length = max 1 3 := by
  have h := claim_c6.1 [{ Column := 7, Dir := "desc" }] "order[2][dir]" "asc" "2" "dir" 2
      [{ Column := 7, Dir := "desc" }, Order.zero, { Column := 0, Dir := "asc" }] rfl rfl rfl
  exact ⟨h.2.1 0 (by decide) (by decide), h.1⟩

/-- C7 (confirmed): every boolean form field — the global `search[regex]`,
per-column `searchable` and `orderable`, and the per-column
`search][regex]` — decodes to true exactly when the wire value is the
literal string `"true"`; every other string yields false and never a
failure. -/
theorem claim_c7 (s : Search) (v : String) :
    parseSearch s "search[regex]" v = .ok { s with Regex := decide (v = "true") }
    ∧ parseColumn [] "columns[0][searchable]" v = .ok [{ Column.zero with Searchable := decide (v = "true") }]
    ∧ parseColumn [] "columns[0][orderable]" v = .ok [{ Column.zero with Orderable := decide (v = "true") }]
    ∧ parseColumn [] "columns[0][search][regex]" v =
        .ok [{ Column.zero with Search := { Search.zero with Regex := decide (v = "true") } }]
    ∧ (decide (v = "true") = true ↔ v = "true") := by
  refine ⟨?_, ?_, ?_, ?_, by simp⟩
  · have e : parseSearch s "search[regex]" v =
        (if v = "true" then .ok { s with Regex := true } else .ok { s with Regex := false }) := rfl
    by_cases h : v = "true"
    · subst h
      simp [e]
    · simp [e, h]
  · have e : parseColumn [] "columns[0][searchable]" v =
        (if v = "true" then .ok [{ Column.zero with Searchable := true }]
         else .ok [{ Column.zero with Searchable := false }]) := rfl
    by_cases h : v = "true"
    · subst h
      simp [e]
    · simp [e, h]
  · have e : parseColumn [] "columns[0][orderable]" v =
        (if v = "true" then .ok [{ Column.zero with Orderable := true }]
         else .ok [{ Column.zero with Orderable := false }]) := rfl
    by_cases h : v = "true"
    · subst h
      simp [e]
    · simp [e, h]
  · by_cases h : v = "true"
    · subst h
      rfl
    · have e : parseSearch Search.zero "search[regex]" v =
          (if v = "true" then .ok { Search.zero with Regex := true }
           else .ok { Search.zero with Regex := false }) := rfl
      have e2 : parseColumn [] "columns[0][search][regex]" v =
          (match parseSearch Search.zero "search[regex]" v with
           | .error er => .error er
           | .ok sr => .ok [{ Column.zero with Search := sr }]) := rfl
      rw [e2, e, if_neg h]
      simp [h]

/-- C7 (witness): the value `"false"` coerces to false without failure. -/
theorem claim_c7_witness :
    parseSearch Search.zero "search[regex]" "false" = .ok { Search.zero with Regex := false } := by
  have h := (claim_c7 Search.zero "false").1
  simpa using h

/-- C8 (counterexample): the non-numeric index key `columns[abc][data]`
fails the decode with the `ErrNotEnoughFields` error — the regular
expression simply does not match, so the failure is the "insufficient
fields" condition itself, not a failure distinguished from it. -/
theorem claim_c8_cex :
    ParseURLValues [("columns[abc][data]", ["x"])] = .error GoErr.errNotEnoughFields
    ∧ GoErr.errNotEnoughFields ≠ GoErr.errAtoi :=
  ⟨rfl, by decide⟩

/-- C8 (amended): a key with a non-numeric index (e.g. `columns[abc][data]`)
fails the decode, but with the "insufficient fields" error, since the key
pattern does not match; a non-numeric value for an integer field (`draw`,
`start`, `length`, `order[i][column]`) fails with the integer-parse
error; in either case the first error aborts the decode and no further
keys are processed. -/
theorem claim_c8 :
    (∀ (cols : List Column) (v : String),
        parseColumn cols "columns[abc][data]" v = .error GoErr.errNotEnoughFields)
    ∧ (∀ (r : Request) (k v : String) (vs : List String) (rest : List (String × List String)),
        (k = "draw" ∨ k = "start" ∨ k = "length") → atoi v = none →
        parseURLValuesAux r ((k, v :: vs) :: rest) = .error GoErr.errAtoi)
    ∧ (∀ (o : List Order) (v : String), atoi v = none →
        parseOrder o "order[0][column]" v = .error GoErr.errAtoi)
    ∧ (∀ (r : Request) (k : String) (vs : List String) (rest : List (String × List String)) (e : GoErr),
        parseStep r k vs = .error e → parseURLValuesAux r ((k, vs) :: rest) = .error e) := by
  refine ⟨fun cols v => rfl, ?_, ?_, ?_⟩
  · intro r k v vs rest hk hv
    have hs : parseStep r k (v :: vs) = .error GoErr.errAtoi := by
      rcases hk with rfl | rfl | rfl <;>
        · unfold parseStep
          simp only [hv]
          simp
    simp only [parseURLValuesAux, hs]
  · intro o v hv
    have e : parseOrder o "order[0][column]" v =
        (match atoi v with
         | none => Except.error GoErr.errAtoi
         | some n =>
           Except.ok ((grow Order.zero o 1).set 0
             { (grow Order.zero o 1).getD 0 Order.zero with Column := n })) := rfl
    rw [e, hv]
  · intro r k vs rest e hs
    simp only [parseURLValuesAux, hs]

/-- C8 (witness): a non-numeric `draw` value aborts the decode at once
with the integer-parse error, ignoring the remaining keys. -/
theorem claim_c8_witness :
    parseURLValuesAux Request.zero [("draw", ["abc"]), ("start", ["0"])] = .error GoErr.errAtoi :=
  claim_c8.2.1 Request.zero "draw" "abc" [] [("start", ["0"])] (Or.inl rfl) rfl

/-- C9 (counterexample): the key `"searching"` is not of the form
`search[...]` (nor `order[...]`, `columns[...]`, nor a bare key), yet
adding it makes the decode fail instead of being ignored, because
dispatch is by the prefix `search`. -/
theorem claim_c9_cex :
    ParseURLValues [("searching", ["1"])] = .error GoErr.errNotEnoughFields
    ∧ ParseURLValues [] = .ok Request.zero :=
  ⟨rfl, rfl⟩

/-- C9 (amended): a key that is none of the bare keys `draw`, `start`,
`length` and does not carry one of the dispatch prefixes `search`,
`order`, `column` is ignored: adding it anywhere, with any value list,
never fails and leaves the decoded Request identical. (A key carrying a
family prefix without matching the family's full pattern instead fails
the decode with the "insufficient fields" error.) -/
theorem claim_c9 (u1 u2 : List (String × List String)) (k : String) (vs : List String)
    (h1 : k ≠ "draw") (h2 : k ≠ "start") (h3 : k ≠ "length")
    (h4 : hasPfx "search" k = false) (h5 : hasPfx "order" k = false)
    (h6 : hasPfx "column" k = false) :
    ParseURLValues (u1 ++ (k, vs) :: u2) = ParseURLValues (u1 ++ u2) := by
  unfold ParseURLValues
  refine parseAux_congr u1 _ _ (fun r => ?_) Request.zero
  simp only [parseURLValuesAux, parseStep_ignored r k vs h1 h2 h3 h4 h5 h6]

/-- C9 (witness): a cache-busting `_` key is ignored by the decoder. -/
theorem claim_c9_witness :
    ParseURLValues ([("draw", ["3"])] ++ ("_", ["1495876460828"]) :: []) =
      ParseURLValues ([("draw", ["3"])] ++ []) :=
  claim_c9 [("draw", ["3"])] [] "_" ["1495876460828"]
    (by decide) (by decide) (by decide) (by decide) (by decide) (by decide)

/-- C10 (confirmed): only the first element of a key's value list affects
the decoded Request — extra values are ignored — and an entry whose value
list is empty is skipped entirely, contributing nothing and causing no
failure. -/
theorem claim_c10 (u1 u2 : List (String × List String)) (k v : String) (vs : List String) :
    ParseURLValues (u1 ++ (k, v :: vs) :: u2) = ParseURLValues (u1 ++ (k, [v]) :: u2)
    ∧ ParseURLValues (u1 ++ (k, []) :: u2) = ParseURLValues (u1 ++ u2) := by
  constructor
  · unfold ParseURLValues
    refine parseAux_congr u1 _ _ (fun r => ?_) Request.zero
    simp only [parseURLValuesAux, parseStep_head]
  · unfold ParseURLValues
    refine parseAux_congr u1 _ _ (fun r => ?_) Request.zero
    simp only [parseURLValuesAux, parseStep]

/-! ## Lemmas about the JSON codecs -/

theorem mapUpd_of_ne {α : Type} (m : List (String × α)) (k : String) (v : α)
    (h : ∀ p ∈ m, p.1 ≠ k) : mapUpd m k v = m ++ [(k, v)] := by
  unfold mapUpd
  rw [if_neg]
  simp only [List.any_eq_true, decide_eq_true_eq]
  rintro ⟨p, hp, he⟩
  exact h p hp he

theorem foldl_mapUpd_append {α : Type} (l acc : List (String × α))
    (hd : ∀ p ∈ l, ∀ q ∈ acc, p.1 ≠ q.1)
    (hn : (l.map Prod.fst).Nodup) :
    l.foldl (fun m p => mapUpd m p.1 p.2) acc = acc ++ l := by
  induction l generalizing acc with
  | nil => simp
  | cons a l ih =>
    simp only [List.map_cons, List.nodup_cons, List.mem_map] at hn
    simp only [List.foldl_cons]
    have h1 : mapUpd acc a.1 a.2 = acc ++ [a] := by
      rw [mapUpd_of_ne acc a.1 a.2 (fun q hq he => hd a (by simp) q hq he.symm)]
    rw [h1, ih (acc ++ [a]) ?_ hn.2, List.append_assoc]
    · rfl
    · intro p hp q hq
      rcases List.mem_append.mp hq with hq | hq
      · exact hd p (by simp [hp]) q hq
      · rw [List.mem_singleton.mp hq]
        intro he
        exact hn.1 ⟨p, hp, he⟩

theorem decodeMapEntries_str (l acc : List (String × String)) :
    decodeMapEntries acc (l.map (fun p => (p.1, Json.str p.2))) =
      some (l.foldl (fun m p => mapUpd m p.1 p.2) acc) := by
  induction l generalizing acc with
  | nil => rfl
  | cons a l ih =>
    simp only [List.map_cons, decodeMapEntries, List.foldl_cons]
    exact ih _

theorem lastFoldLookup_step (l : List (String × Json)) (k : String) (acc : Option Json) :
    l.foldl (fun a p => if foldEq p.1 k then some p.2 else a) acc =
      match lastFoldLookup l k with
      | some w => some w
      | none => acc := by
  induction l generalizing acc with
  | nil => simp [lastFoldLookup]
  | cons a l ih =>
    show l.foldl _ (if foldEq a.1 k then some a.2 else acc) = _
    rw [ih]
    conv_rhs => rw [lastFoldLookup]
    simp only [List.foldl_cons]
    rw [show (l.foldl (fun a p => if foldEq p.1 k then some p.2 else a)
          (if foldEq a.1 k then some a.2 else none)) = _ from ih _]
    cases lastFoldLookup l k with
    | some w => rfl
    | none =>
      by_cases h : foldEq a.1 k = true
      · simp [h]
      · simp [h]

theorem lastFoldLookup_append (a b : List (String × Json)) (k : String) :
    lastFoldLookup (a ++ b) k =
      match lastFoldLookup b k with
      | some w => some w
      | none => lastFoldLookup a k := by
  unfold lastFoldLookup
  rw [List.foldl_append]
  exact lastFoldLookup_step b k _

theorem lastFoldLookup_of_ne (l : List (String × Json)) (k : String)
    (h : ∀ p ∈ l, foldEq p.1 k = false) : lastFoldLookup l k = none := by
  induction l with
  | nil => rfl
  | cons a l ih =>
    unfold lastFoldLookup
    simp only [List.foldl_cons]
    rw [if_neg (by simp [h a (by simp)])]
    exact ih (fun p hp => h p (by simp [hp]))

theorem foldl_mapDel_eq_filter (ks : List String) (m : List (String × String)) :
    ks.foldl mapDel m = m.filter (fun p => decide (p.1 ∉ ks)) := by
  induction ks generalizing m with
  | nil => simp
  | cons k ks ih =>
    simp only [List.foldl_cons]
    rw [ih]
    unfold mapDel
    rw [List.filter_filter]
    apply List.filter_congr
    intro p _
    by_cases h1 : p.1 = k <;> by_cases h2 : p.1 ∈ ks <;> simp [h1, h2]

theorem lastFoldLookup_append_left_ne (a b : List (String × Json)) (k : String)
    (ha : ∀ p ∈ a, foldEq p.1 k = false) :
    lastFoldLookup (a ++ b) k = lastFoldLookup b k := by
  rw [lastFoldLookup_append]
  cases h : lastFoldLookup b k with
  | some w => rfl
  | none => exact lastFoldLookup_of_ne a k ha

theorem ne_of_foldEq_false {a b : String} (h : foldEq a b = false) : a ≠ b := by
  intro he
  subst he
  simp [foldEq] at h

theorem data_keys_fold_ne {dat : List (String × String)}
    (hdres : ∀ p ∈ dat, ∀ k ∈ reservedKeys, foldEq p.1 k = false) {k : String}
    (hk : k ∈ reservedKeys) :
    ∀ p ∈ dat.map (fun p => (p.1, Json.str p.2)), foldEq p.1 k = false := by
  intro p hp
  obtain ⟨q, hq, rfl⟩ := List.mem_map.mp hp
  exact hdres q hq k hk

theorem data_keys_ne {dat : List (String × String)}
    (hdres : ∀ p ∈ dat, ∀ k ∈ reservedKeys, foldEq p.1 k = false) {k : String}
    (hk : k ∈ reservedKeys) :
    ∀ p ∈ dat.map (fun p => (p.1, Json.str p.2)), p.1 ≠ k := by
  intro p hp
  exact ne_of_foldEq_false (data_keys_fold_ne hdres hk p hp)

/-- Decoding the object made of string data entries followed by reserved
metadata entries recovers the combined association list, and deleting the
reserved keys recovers exactly the data part. -/
theorem row_decode_core (dat meta : List (String × String))
    (hnd : (dat.map Prod.fst).Nodup)
    (hdres : ∀ p ∈ dat, ∀ k ∈ reservedKeys, foldEq p.1 k = false)
    (hmres : ∀ p ∈ meta, p.1 ∈ reservedKeys)
    (hmnd : (meta.map Prod.fst).Nodup) :
    decodeStringMap (Json.obj ((dat ++ meta).map (fun p => (p.1, Json.str p.2)))) =
      some (dat ++ meta)
    ∧ reservedKeys.foldl mapDel (dat ++ meta) = dat := by
  constructor
  · show decodeMapEntries [] ((dat ++ meta).map _) = _
    rw [decodeMapEntries_str]
    rw [foldl_mapUpd_append _ [] (by simp) ?_]
    · rw [List.nil_append]
    · rw [List.map_append]
      refine List.Nodup.append hnd hmnd ?_
      intro a hda hma
      obtain ⟨p, hp, rfl⟩ := List.mem_map.mp hda
      obtain ⟨q, hq, hqe⟩ := List.mem_map.mp hma
      have hff : foldEq p.1 p.1 = false := hdres p hp p.1 (hqe ▸ hmres q hq)
      simp [foldEq] at hff
  · rw [foldl_mapDel_eq_filter, List.filter_append]
    rw [List.filter_eq_self.mpr ?_, List.filter_eq_nil_iff.mpr ?_, List.append_nil]
    · intro p hp
      simpa using hmres p hp
    · intro p hp
      simp only [decide_eq_true_eq]
      intro hmem
      exact ne_of_foldEq_false (hdres p hp p.1 hmem) rfl

theorem mapUpd_if (c : Prop) [Decidable c] (m : List (String × Json)) (k : String) (v : Json)
    (h : ∀ p ∈ m, p.1 ≠ k) :
    (if c then mapUpd m k v else m) = m ++ (if c then [(k, v)] else []) := by
  split
  · exact mapUpd_of_ne m k v h
  · simp

/-- Encoding a plain row yields the object holding the data entries
followed by the non-empty `DT_RowId` / `DT_RowClass` members. -/
theorem row_marshal_plain (r : Row) (hnd : (r.Data.map Prod.fst).Nodup)
    (hdres : ∀ p ∈ r.Data, ∀ k ∈ reservedKeys, foldEq p.1 k = false)
    (hrd : r.RowData = []) (hra : r.RowAttr = []) :
    Row.marshalJSON r =
      Json.obj ((r.Data ++
        ((if r.RowID = "" then [] else [("DT_RowId", r.RowID)]) ++
         (if r.RowClass = "" then [] else [("DT_RowClass", r.RowClass)]))).map
        (fun p => (p.1, Json.str p.2))) := by
  unfold Row.marshalJSON
  rw [hrd, hra]
  simp only [ne_eq, not_true_eq_false, if_false]
  have hc0 : (r.Data.map (fun p => (p.1, Json.str p.2))).foldl (fun m p => mapUpd m p.1 p.2) [] =
      r.Data.map (fun p => (p.1, Json.str p.2)) := by
    rw [foldl_mapUpd_append _ [] (by simp) ?_, List.nil_append]
    have hk : List.map (Prod.fst ∘ fun p => (p.1, Json.str p.2)) r.Data =
        List.map Prod.fst r.Data :=
      List.map_congr_left (fun p _ => rfl)
    rw [List.map_map, hk]
    exact hnd
  rw [hc0]
  rw [mapUpd_if _ _ _ _ (data_keys_ne hdres (by simp [reservedKeys]))]
  rw [mapUpd_if _ _ _ _ ?_]
  · rw [List.append_assoc]
    congr 1
    rw [List.map_append, List.map_append]
    congr 1
    congr 1
    · by_cases hid : r.RowID = "" <;> simp [hid]
    · by_cases hcl : r.RowClass = "" <;> simp [hcl]
  · intro p hp
    rcases List.mem_append.mp hp with hp | hp
    · exact data_keys_ne hdres (by simp [reservedKeys]) p hp
    · split at hp
      · rw [List.mem_singleton.mp hp]
        simp
      · simp at hp

/-- Decoding an object of string data entries followed by reserved
metadata entries, with the metadata lookups given, yields the row made of
the data part and those metadata values. -/
theorem row_unmarshal_plain_obj (dat meta : List (String × String)) (rid rcl : String)
    (hnd : (dat.map Prod.fst).Nodup)
    (hdres : ∀ p ∈ dat, ∀ k ∈ reservedKeys, foldEq p.1 k = false)
    (hmres : ∀ p ∈ meta, p.1 ∈ reservedKeys)
    (hmnd : (meta.map Prod.fst).Nodup)
    (hgid : getStrField ((dat ++ meta).map (fun p => (p.1, Json.str p.2))) "DT_RowId" = some rid)
    (hgcl : getStrField ((dat ++ meta).map (fun p => (p.1, Json.str p.2))) "DT_RowClass" = some rcl)
    (hgrd : getMapField ((dat ++ meta).map (fun p => (p.1, Json.str p.2))) "DT_RowData" = some [])
    (hgra : getMapField ((dat ++ meta).map (fun p => (p.1, Json.str p.2))) "DT_RowAttr" = some []) :
    Row.unmarshalJSON (Json.obj ((dat ++ meta).map (fun p => (p.1, Json.str p.2)))) =
      some ⟨dat, rid, rcl, [], []⟩ := by
  obtain ⟨hdsm, hdel⟩ := row_decode_core dat meta hnd hdres hmres hmnd
  have e : Row.unmarshalJSON (Json.obj ((dat ++ meta).map (fun p => (p.1, Json.str p.2)))) =
      (match getStrField ((dat ++ meta).map (fun p => (p.1, Json.str p.2))) "DT_RowId",
             getStrField ((dat ++ meta).map (fun p => (p.1, Json.str p.2))) "DT_RowClass",
             getMapField ((dat ++ meta).map (fun p => (p.1, Json.str p.2))) "DT_RowData",
             getMapField ((dat ++ meta).map (fun p => (p.1, Json.str p.2))) "DT_RowAttr" with
       | some rid, some rcl, some rdata, some rattr =>
         match decodeStringMap (Json.obj ((dat ++ meta).map (fun p => (p.1, Json.str p.2)))) with
         | none => none
         | some data =>
           some { Data := reservedKeys.foldl mapDel data,
                  RowID := rid, RowClass := rcl, RowData := rdata, RowAttr := rattr }
       | _, _, _, _ => none) := rfl
  rw [e, hgid, hgcl, hgrd, hgra, hdsm]
  show some ({ Data := reservedKeys.foldl mapDel (dat ++ meta),
               RowID := rid, RowClass := rcl, RowData := [], RowAttr := [] } : Row) =
    some ⟨dat, rid, rcl, [], []⟩
  rw [hdel]

/-- Core of the Row codec round trip: decoding the plain-row encoding
returns the row. -/
theorem row_roundtrip (r : Row) (h : Row.plain r) :
    Row.unmarshalJSON (Row.marshalJSON r) = some r := by
  obtain ⟨hnd, hascii, hdres, hrd, hra⟩ := h
  obtain ⟨rdat, rid0, rcl0, rrd, rra⟩ := r
  simp only at hnd hdres hrd hra ⊢
  subst hrd
  subst hra
  rw [row_marshal_plain ⟨rdat, rid0, rcl0, [], []⟩ hnd hdres rfl rfl]
  simp only
  have hdid : ∀ p ∈ rdat.map (fun p => (p.1, Json.str p.2)), foldEq p.1 "DT_RowId" = false :=
    data_keys_fold_ne hdres (by simp [reservedKeys])
  have hdcl : ∀ p ∈ rdat.map (fun p => (p.1, Json.str p.2)), foldEq p.1 "DT_RowClass" = false :=
    data_keys_fold_ne hdres (by simp [reservedKeys])
  have hdrd : ∀ p ∈ rdat.map (fun p => (p.1, Json.str p.2)), foldEq p.1 "DT_RowData" = false :=
    data_keys_fold_ne hdres (by simp [reservedKeys])
  have hdra : ∀ p ∈ rdat.map (fun p => (p.1, Json.str p.2)), foldEq p.1 "DT_RowAttr" = false :=
    data_keys_fold_ne hdres (by simp [reservedKeys])
  by_cases hid : rid0 = "" <;> by_cases hcl : rcl0 = ""
  · rw [if_pos hid, if_pos hcl, List.nil_append]
    exact row_unmarshal_plain_obj rdat [] rid0 rcl0 hnd hdres (by simp) (by simp)
      (by unfold getStrField
          rw [List.append_nil, lastFoldLookup_of_ne _ _ hdid, hid])
      (by unfold getStrField
          rw [List.append_nil, lastFoldLookup_of_ne _ _ hdcl, hcl])
      (by unfold getMapField
          rw [List.append_nil, lastFoldLookup_of_ne _ _ hdrd])
      (by unfold getMapField
          rw [List.append_nil, lastFoldLookup_of_ne _ _ hdra])
  · rw [if_pos hid, if_neg hcl, List.nil_append]
    exact row_unmarshal_plain_obj rdat [("DT_RowClass", rcl0)] rid0 rcl0 hnd hdres
      (by intro p hp
          rw [List.mem_singleton.mp hp]
          simp [reservedKeys])
      (by simp)
      (by unfold getStrField
          rw [List.map_append, lastFoldLookup_append_left_ne _ _ _ hdid]
          rw [show lastFoldLookup ([("DT_RowClass", rcl0)].map (fun p => (p.1, Json.str p.2)))
                "DT_RowId" = none from rfl, hid])
      (by unfold getStrField
          rw [List.map_append, lastFoldLookup_append_left_ne _ _ _ hdcl]
          rfl)
      (by unfold getMapField
          rw [List.map_append, lastFoldLookup_append_left_ne _ _ _ hdrd]
          rfl)
      (by unfold getMapField
          rw [List.map_append, lastFoldLookup_append_left_ne _ _ _ hdra]
          rfl)
  · rw [if_neg hid, if_pos hcl, List.append_nil]
    exact row_unmarshal_plain_obj rdat [("DT_RowId", rid0)] rid0 rcl0 hnd hdres
      (by intro p hp
          rw [List.mem_singleton.mp hp]
          simp [reservedKeys])
      (by simp)
      (by unfold getStrField
          rw [List.map_append, lastFoldLookup_append_left_ne _ _ _ hdid]
          rfl)
      (by unfold getStrField
          rw [List.map_append, lastFoldLookup_append_left_ne _ _ _ hdcl]
          rw [show lastFoldLookup ([("DT_RowId", rid0)].map (fun p => (p.1, Json.str p.2)))
                "DT_RowClass" = none from rfl, hcl])
      (by unfold getMapField
          rw [List.map_append, lastFoldLookup_append_left_ne _ _ _ hdrd]
          rfl)
      (by unfold getMapField
          rw [List.map_append, lastFoldLookup_append_left_ne _ _ _ hdra]
          rfl)
  · rw [if_neg hid, if_neg hcl]
    exact row_unmarshal_plain_obj rdat [("DT_RowId", rid0), ("DT_RowClass", rcl0)]
      rid0 rcl0 hnd hdres
      (by intro p hp
          rcases List.mem_cons.mp hp with hp | hp
          · rw [hp]
            simp [reservedKeys]
          · rw [List.mem_singleton.mp hp]
            simp [reservedKeys])
      (by rw [show List.map Prod.fst [("DT_RowId", rid0), ("DT_RowClass", rcl0)] =
            ["DT_RowId", "DT_RowClass"] from rfl]
          decide)
      (by unfold getStrField
          rw [List.map_append, lastFoldLookup_append_left_ne _ _ _ hdid]
          rfl)
      (by unfold getStrField
          rw [List.map_append, lastFoldLookup_append_left_ne _ _ _ hdcl]
          rfl)
      (by unfold getMapField
          rw [List.map_append, lastFoldLookup_append_left_ne _ _ _ hdrd]
          rfl)
      (by unfold getMapField
          rw [List.map_append, lastFoldLookup_append_left_ne _ _ _ hdra]
          rfl)

theorem decodeEach_map {α : Type} (f : Json → Option α) (g : α → Json) (l : List α)
    (h : ∀ x ∈ l, f (g x) = some x) :
    decodeEach f (l.map g) = some l := by
  induction l with
  | nil => rfl
  | cons x l ih =>
    simp only [List.map_cons, decodeEach, h x (by simp)]
    rw [ih (fun y hy => h y (by simp [hy]))]
    rfl

theorem decodeStringList_strs (xs : List String) :
    decodeStringList (Json.arr (xs.map Json.str)) = some xs := by
  show decodeEach decodeStrElem (xs.map Json.str) = some xs
  exact decodeEach_map _ _ _ (fun x _ => rfl)

theorem search_rt (s : Search) : Search.fromJson (Search.toJson s) = some s := rfl

theorem order_rt (o : Order) : Order.fromJson (Order.toJson o) = some o := rfl

theorem column_rt (c : Column) : Column.fromJson (Column.toJson c) = some c := rfl

theorem request_rt (r : Request) : Request.fromJson (Request.toJson r) = some r := by
  have e : Request.fromJson (Request.toJson r) =
      (match decodeEach Order.fromJson (r.Order.map Order.toJson),
             decodeEach Column.fromJson (r.Columns.map Column.toJson) with
       | some os, some cs => some ⟨r.Draw, r.Start, r.Length, r.Search, os, cs⟩
       | _, _ => none) := rfl
  rw [e, decodeEach_map _ _ _ (fun x _ => order_rt x),
      decodeEach_map _ _ _ (fun x _ => column_rt x)]

theorem response_rt (resp : Response) (h : ∀ row ∈ resp.Data, Row.plain row) :
    Response.fromJson (Response.toJson resp) = some resp := by
  have hrows : decodeEach Row.unmarshalJSON (resp.Data.map Row.marshalJSON) = some resp.Data :=
    decodeEach_map _ _ _ (fun x hx => row_roundtrip x (h x hx))
  obtain ⟨dw, rt, rf, rows, er⟩ := resp
  simp only at hrows ⊢
  by_cases he : er = ""
  · subst he
    have e1 : Response.toJson ⟨dw, rt, rf, rows, ""⟩ =
        Json.obj [("draw", .num dw), ("recordsTotal", .num rt), ("recordsFiltered", .num rf),
                  ("data", .arr (rows.map Row.marshalJSON))] := by
      unfold Response.toJson
      simp
    rw [e1]
    have e2 : Response.fromJson (Json.obj [("draw", .num dw), ("recordsTotal", .num rt),
        ("recordsFiltered", .num rf), ("data", .arr (rows.map Row.marshalJSON))]) =
        (match getListField Row.unmarshalJSON [("draw", .num dw), ("recordsTotal", .num rt),
            ("recordsFiltered", .num rf), ("data", .arr (rows.map Row.marshalJSON))] "data",
          getStrField [("draw", .num dw), ("recordsTotal", .num rt),
            ("recordsFiltered", .num rf), ("data", .arr (rows.map Row.marshalJSON))] "error" with
         | some rws, some e => some ⟨dw, rt, rf, rws, e⟩
         | _, _ => none) := rfl
    have e3 : getListField Row.unmarshalJSON [("draw", .num dw), ("recordsTotal", .num rt),
        ("recordsFiltered", .num rf), ("data", .arr (rows.map Row.marshalJSON))] "data" =
        decodeEach Row.unmarshalJSON (rows.map Row.marshalJSON) := rfl
    have e4 : getStrField [("draw", .num dw), ("recordsTotal", .num rt),
        ("recordsFiltered", .num rf), ("data", .arr (rows.map Row.marshalJSON))] "error" =
        some "" := rfl
    rw [e2, e3, e4, hrows]
  · have e1 : Response.toJson ⟨dw, rt, rf, rows, er⟩ =
        Json.obj [("draw", .num dw), ("recordsTotal", .num rt), ("recordsFiltered", .num rf),
                  ("data", .arr (rows.map Row.marshalJSON)), ("error", .str er)] := by
      unfold Response.toJson
      simp [he]
    rw [e1]
    have e2 : Response.fromJson (Json.obj [("draw", .num dw), ("recordsTotal", .num rt),
        ("recordsFiltered", .num rf), ("data", .arr (rows.map Row.marshalJSON)),
        ("error", .str er)]) =
        (match getListField Row.unmarshalJSON [("draw", .num dw), ("recordsTotal", .num rt),
            ("recordsFiltered", .num rf), ("data", .arr (rows.map Row.marshalJSON)),
            ("error", .str er)] "data",
          getStrField [("draw", .num dw), ("recordsTotal", .num rt),
            ("recordsFiltered", .num rf), ("data", .arr (rows.map Row.marshalJSON)),
            ("error", .str er)] "error" with
         | some rws, some e => some ⟨dw, rt, rf, rws, e⟩
         | _, _ => none) := rfl
    have e3 : getListField Row.unmarshalJSON [("draw", .num dw), ("recordsTotal", .num rt),
        ("recordsFiltered", .num rf), ("data", .arr (rows.map Row.marshalJSON)),
        ("error", .str er)] "data" =
        decodeEach Row.unmarshalJSON (rows.map Row.marshalJSON) := rfl
    have e4 : getStrField [("draw", .num dw), ("recordsTotal", .num rt),
        ("recordsFiltered", .num rf), ("data", .arr (rows.map Row.marshalJSON)),
        ("error", .str er)] "error" = some er := rfl
    rw [e2, e3, e4, hrows]

/-! ## Claims about the JSON codecs -/

/-- C1 (counterexample): a Row whose `DT_RowData` mapping is non-empty
does not round-trip — the encoder nests the mapping as a JSON object,
and the decoder's whole-object decode into `map[string]string` then fails
on the non-string member, so decoding returns an error rather than the
row. -/
theorem claim_c1_cex :
    Row.unmarshalJSON (Row.marshalJSON rowWithRowData) = none
    ∧ (none : Option Row) ≠ some rowWithRowData :=
  ⟨rfl, by decide⟩

/-- C1 (amended): decoding the encoding returns the same Row for every
Row whose data keys are pairwise distinct (automatic for a Go map),
ASCII, and distinct from every reserved metadata key even up to case
(`encoding/json` matches member names to the `rowCopy` tags
case-insensitively, so a case-variant data key such as `"dt_rowid"`
would be captured by a metadata field on decode), and whose `DT_RowData`
and `DT_RowAttr` mappings are empty; a non-empty `DT_RowData`/`DT_RowAttr`
makes the decode fail outright. -/
theorem claim_c1 (r : Row) (h : Row.plain r) :
    Row.unmarshalJSON (Row.marshalJSON r) = some r :=
  row_roundtrip r h

/-- C1 (witness): a concrete row with data and both scalar metadata
fields round-trips. -/
theorem claim_c1_witness :
    Row.unmarshalJSON (Row.marshalJSON ⟨[("name", "Foo"), ("age", "16")], "row_1", "odd", [], []⟩) =
      some ⟨[("name", "Foo"), ("age", "16")], "row_1", "odd", [], []⟩ :=
  claim_c1 ⟨[("name", "Foo"), ("age", "16")], "row_1", "odd", [], []⟩ (by decide)

/-- C2 (counterexample): `encoding/json` matches object member names to
the `rowCopy` struct tags case-insensitively, so the object
`{"dt_rowid":"x"}` — in which none of the four reserved keys appears —
decodes successfully with RowID `"x"`, not the zero value the claim
promises for absent reserved keys (and `"dt_rowid"` also survives in the
data mapping, since only the exact reserved names are deleted). -/
theorem claim_c2_cex :
    Row.unmarshalJSON (Json.obj [("dt_rowid", Json.str "x")]) =
      some ⟨[("dt_rowid", "x")], "x", "", [], []⟩
    ∧ (∀ p ∈ [("dt_rowid", Json.str "x")], p.1 ∉ reservedKeys)
    ∧ ("x" : String) ≠ "" :=
  ⟨rfl, by decide, by decide⟩

/-- C2 (amended): for every JSON object input with ASCII member names
that are pairwise distinct even up to case (Go folds member names when
matching them to struct fields, with merge rules for colliding names and
extra non-ASCII folds that are out of scope), a successful decode leaves
none of the four reserved keys among the data keys; each metadata field
receives the value of the last member whose name matches the reserved
name case-insensitively — so a case-variant such as `"dt_rowid"`
populates the field while also surviving in the data mapping — and a
reserved name absent even up to case leaves the field at its zero
value. -/
theorem claim_c2 (kvs : List (String × Json)) (r : Row)
    (_hascii : ∀ p ∈ kvs, ∀ c ∈ p.1.toList, c.toNat < 128)
    (_hfold : (kvs.map (fun p => foldKey p.1)).Nodup)
    (h : Row.unmarshalJSON (Json.obj kvs) = some r) :
    (∀ k ∈ reservedKeys, ∀ p ∈ r.Data, p.1 ≠ k)
    ∧ (lastFoldLookup kvs "DT_RowId" = none → r.RowID = "")
    ∧ (∀ s, lastFoldLookup kvs "DT_RowId" = some (Json.str s) → r.RowID = s)
    ∧ (lastFoldLookup kvs "DT_RowClass" = none → r.RowClass = "")
    ∧ (∀ s, lastFoldLookup kvs "DT_RowClass" = some (Json.str s) → r.RowClass = s)
    ∧ (lastFoldLookup kvs "DT_RowData" = none → r.RowData = [])
    ∧ (∀ j, lastFoldLookup kvs "DT_RowData" = some j → decodeStringMap j = some r.RowData)
    ∧ (lastFoldLookup kvs "DT_RowAttr" = none → r.RowAttr = [])
    ∧ (∀ j, lastFoldLookup kvs "DT_RowAttr" = some j → decodeStringMap j = some r.RowAttr) := by
  have h' : (match getStrField kvs "DT_RowId", getStrField kvs "DT_RowClass",
               getMapField kvs "DT_RowData", getMapField kvs "DT_RowAttr" with
             | some rid, some rcl, some rdata, some rattr =>
               match decodeStringMap (Json.obj kvs) with
               | none => none
               | some data =>
                 some ({ Data := reservedKeys.foldl mapDel data,
                         RowID := rid, RowClass := rcl,
                         RowData := rdata, RowAttr := rattr } : Row)
             | _, _, _, _ => none) = some r := h
  cases hrid : getStrField kvs "DT_RowId" with
  | none => rw [hrid] at h'; exact absurd h' (by simp)
  | some rid =>
  cases hrcl : getStrField kvs "DT_RowClass" with
  | none => rw [hrid, hrcl] at h'; exact absurd h' (by simp)
  | some rcl =>
  cases hrda : getMapField kvs "DT_RowData" with
  | none => rw [hrid, hrcl, hrda] at h'; exact absurd h' (by simp)
  | some rdata =>
  cases hrat : getMapField kvs "DT_RowAttr" with
  | none => rw [hrid, hrcl, hrda, hrat] at h'; exact absurd h' (by simp)
  | some rattr =>
  cases hdm : decodeStringMap (Json.obj kvs) with
  | none => rw [hrid, hrcl, hrda, hrat, hdm] at h'; exact absurd h' (by simp)
  | some data =>
  rw [hrid, hrcl, hrda, hrat, hdm] at h'
  simp only [Option.some.injEq] at h'
  subst h'
  refine ⟨?_, ?_, ?_, ?_, ?_, ?_, ?_, ?_, ?_⟩
  · intro k hk p hp he
    rw [foldl_mapDel_eq_filter] at hp
    have := List.of_mem_filter hp
    simp only [decide_eq_true_eq] at this
    exact this (he ▸ hk)
  · intro hl
    unfold getStrField at hrid
    rw [hl] at hrid
    exact (Option.some.inj hrid).symm
  · intro s hl
    unfold getStrField at hrid
    rw [hl] at hrid
    exact (Option.some.inj hrid).symm
  · intro hl
    unfold getStrField at hrcl
    rw [hl] at hrcl
    exact (Option.some.inj hrcl).symm
  · intro s hl
    unfold getStrField at hrcl
    rw [hl] at hrcl
    exact (Option.some.inj hrcl).symm
  · intro hl
    unfold getMapField at hrda
    rw [hl] at hrda
    exact (Option.some.inj hrda).symm
  · intro j hl
    unfold getMapField at hrda
    rw [hl] at hrda
    exact hrda
  · intro hl
    unfold getMapField at hrat
    rw [hl] at hrat
    exact (Option.some.inj hrat).symm
  · intro j hl
    unfold getMapField at hrat
    rw [hl] at hrat
    exact hrat

/-- C2 (witness): decoding the spec's example object places `DT_RowId`
in the RowID field, excluded from the data mapping. -/
theorem claim_c2_witness :
    (⟨[("first_name", "Airi")], "row_1", "rowclass", [], []⟩ : Row).RowID = "row_1" :=
  (claim_c2
    [("DT_RowId", Json.str "row_1"), ("DT_RowClass", Json.str "rowclass"),
     ("first_name", Json.str "Airi")]
    ⟨[("first_name", "Airi")], "row_1", "rowclass", [], []⟩
    (by decide) (by decide) rfl).2.2.1 "row_1" rfl

/-- C4 (confirmed): a JSON array of n strings is accepted by the row
decoder (the array interpretation is tried first) and decodes to a Row
whose data mapping has exactly the keys `"0"`, …, decimal of n−1, each
bound to the array element at that position, with all four metadata
fields at their zero values. -/
theorem claim_c4 (xs : List String) :
    Row.unmarshalJSON (Json.arr (xs.map Json.str)) =
      some { Data := (List.range xs.length).map (fun i => (Nat.repr i, xs.getD i "")),
             RowID := "", RowClass := "", RowData := [], RowAttr := [] } := by
  have e : Row.unmarshalJSON (Json.arr (xs.map Json.str)) =
      (match decodeStringList (Json.arr (xs.map Json.str)) with
       | some rowData =>
         some { Data := rowData.enum.map (fun p => (Nat.repr p.1, p.2)),
                RowID := "", RowClass := "", RowData := ([] : List (String × String)),
                RowAttr := ([] : List (String × String)) }
       | none => none) := rfl
  rw [e, decodeStringList_strs]
  have hdata : xs.enum.map (fun p => (Nat.repr p.1, p.2)) =
      (List.range xs.length).map (fun i => (Nat.repr i, xs.getD i "")) := by
    apply List.ext_get?
    intro n
    rw [List.get?_map, List.get?_map, List.get?_enum]
    rcases Nat.lt_or_ge n xs.length with hn | hn
    · rw [List.get?_range hn, List.get?_eq_get hn]
      simp [List.getD_eq_getElem _ _ hn, List.get_eq_getElem]
      rw [List.getElem?_eq_getElem hn, Option.getD_some]
    · rw [List.get?_eq_none.mpr hn, List.get?_eq_none.mpr (by simpa using hn)]
      rfl
  show some ({ Data := xs.enum.map (fun p => (Nat.repr p.1, p.2)), RowID := "", RowClass := "",
               RowData := [], RowAttr := [] } : Row) = _
  rw [hdata]

/-- C5 (counterexample): a Response containing a row with a non-empty
`DT_RowData` mapping does not round-trip: the row's decoder rejects its
own encoder's output, so decoding the encoded document fails. -/
theorem claim_c5_cex :
    Response.fromJson (Response.toJson respWithRowData) = none
    ∧ (none : Option Response) ≠ some respWithRowData :=
  ⟨rfl, by decide⟩

/-- C5 (amended): JSON-decoding the JSON encoding is the identity for
every Request value, and for every Response value whose rows satisfy the
Row round-trip conditions (pairwise-distinct ASCII data keys, none equal
to a reserved metadata key even up to case, empty
`DT_RowData`/`DT_RowAttr`); the Error field is omitted from the encoding
when empty and restored as empty on decode, and a non-empty Error
round-trips.  A Response holding a row with a non-empty
`DT_RowData`/`DT_RowAttr` mapping fails to decode. -/
theorem claim_c5 :
    (∀ r : Request, Request.fromJson (Request.toJson r) = some r)
    ∧ (∀ resp : Response, (∀ row ∈ resp.Data, Row.plain row) →
        Response.fromJson (Response.toJson resp) = some resp) :=
  ⟨request_rt, response_rt⟩

/-- C5 (witness): a concrete Response with one plain row and a non-empty
error message round-trips. -/
theorem claim_c5_witness :
    Response.fromJson (Response.toJson
        ⟨5, 2, 2, [⟨[("name", "Foo")], "row_1", "odd", [], []⟩], "boom"⟩) =
      some ⟨5, 2, 2, [⟨[("name", "Foo")], "row_1", "odd", [], []⟩], "boom"⟩ :=
  claim_c5.2 ⟨5, 2, 2, [⟨[("name", "Foo")], "row_1", "odd", [], []⟩], "boom"⟩ (by decide)

end GoDataTables
